import Mathlib

/-!
Shallow embedding of the tftpd-read-only protocol core
(src/state.rs, src/server.rs) and verification of the frozen claims.

Modelling conventions:
- machine integers are `Nat`; 16-bit wraparound is explicit `% 65536`
  (release-mode wrapping semantics for `wrapping_sub` / `wrapping_add`
  and for the `as u16` cast);
- `Vec<Chunk>` is `List Chunk`; `Vec::pop` removes the LAST element,
  so popping n times is `take (length - n)`;
- the open file handle is a pure record of the file bytes plus a read
  cursor; `File::read` into a buffer of size n yields `min n remaining`
  bytes and advances the cursor;
- the filesystem is a map from paths to file contents; `Path` is a list
  of components with an absolute-path flag, rendered with `/` separators
  exactly as `PathBuf::to_str` renders a path built by `join`;
- the connection table `HashMap<SocketAddr, State>` is a function from
  addresses to `Option State`;
- fallible Rust functions returning `Result` become `Except String`;
- packets sent on the socket are accumulated in a list of `OutPacket`.
-/

namespace Tftpd

/-- Byte of a file or of a packet payload. -/
abbrev Byte := Nat

/-- A chunk of file data (src/state.rs: `type Chunk = Vec<u8>`). -/
abbrev Chunk := List Byte

/-- The in-flight window (src/state.rs: `type Window = Vec<Chunk>`). -/
abbrev Window := List Chunk

/-- TFTP error codes (src/packet.rs, as used by src/server.rs and listed in
the spec): the eight wire codes plus the internal sentinel `FileExists`
meaning "file exists, proceed". -/
inductive ErrorCode where
  | NotDefined
  | FileNotFound
  | AccessViolation
  | DiskFull
  | IllegalOperation
  | UnknownTransferId
  | FileAlreadyExists
  | NoSuchUser
  | FileExists
deriving DecidableEq

/-- Kinds of negotiable transfer options (src/packet.rs `OptionType`). -/
inductive OptionType where
  | BlockSize
  | TransferSize
  | Timeout
  | Windowsize
deriving DecidableEq

/-- A requested transfer option: kind plus numeric value
(src/packet.rs `TransferOption`). -/
structure TransferOption where
  option : OptionType
  value : Nat
deriving DecidableEq

/-- Resolved options (src/state.rs `StateOptions`). -/
structure StateOptions where
  blk_size : Nat
  t_size : Nat
  timeout : Nat
  windowsize : Nat
deriving DecidableEq

/-- Pure model of an open read-only file handle: contents plus cursor. -/
structure FileH where
  bytes : List Byte
  pos : Nat
deriving DecidableEq

/-- Per-client transfer state (src/state.rs `State`); the `filepath`
field, used only for a log line, is omitted. -/
structure State where
  file : FileH
  options : StateOptions
  block_number : Nat
  window : Window
  finished : Bool
deriving DecidableEq

/-- Client address (stands for `SocketAddr`). -/
abbrev Addr := Nat

/-- The connection table `HashMap<SocketAddr, State>`: at most one entry
per address, modelled as a function into `Option State`. -/
abbrev ConnMap := Addr → Option State

/-- The empty connection table. -/
def conn0 : ConnMap := fun _ => none

/-- `HashMap::insert` / `HashMap::remove` combined: point update. -/
def updateConn (c : ConnMap) (a : Addr) (v : Option State) : ConnMap :=
  fun x => if x = a then v else c x

/-- Packets the server writes to the socket (the only kinds it sends:
Data, Error, OptionAck). -/
inductive OutPacket where
  | data (blk : Nat) (payload : Chunk)
  | err (code : ErrorCode) (msg : String)
  | oack (opts : List TransferOption)
deriving DecidableEq

/-- Path model: absolute-path flag plus the list of components. -/
structure PathM where
  abs : Bool
  comps : List String
deriving DecidableEq

/-- `Path::join`: an absolute right operand replaces the left one,
otherwise components are appended. -/
def joinPath (dir f : PathM) : PathM :=
  if f.abs then f else ⟨dir.abs, dir.comps ++ f.comps⟩

/-- Join character lists with a `/` between consecutive elements. -/
def sepJoin : List (List Char) → List Char
  | [] => []
  | [c] => c
  | c :: c' :: rest => c ++ '/' :: sepJoin (c' :: rest)

/-- The characters of the rendered path string (`PathBuf::to_str`). -/
def pathChars (p : PathM) : List Char :=
  (if p.abs then ['/'] else []) ++ sepJoin (p.comps.map String.data)

/-- Substring test on character lists (`str::contains` with a literal
pattern). -/
def hasSubstring (pat : List Char) : List Char → Bool
  | [] => pat.isEmpty
  | c :: rest => pat.isPrefixOf (c :: rest) || hasSubstring pat rest

/-- The pattern `".."` as characters. -/
def dotdot : List Char := ['.', '.']

/-- `Path::ancestors`: the path itself, then each parent, down to the
root (for an absolute path) or the empty path (for a relative one). -/
def ancestors (p : PathM) : List PathM :=
  (List.range (p.comps.length + 1)).reverse.map (fun n => ⟨p.abs, p.comps.take n⟩)

/-- src/server.rs `validate_file_path`:
`!file.to_str().unwrap().contains("..") && file.ancestors().any(|a| a == directory)`. -/
def validate_file_path (file : PathM) (directory : PathM) : Bool :=
  !(hasSubstring dotdot (pathChars file)) && decide (directory ∈ ancestors file)

/-- src/server.rs `check_file_exists`: path validation first, then the
existence check (`ex` is the result `file.exists()` would give). -/
def check_file_exists (file : PathM) (directory : PathM) (ex : Bool) : ErrorCode :=
  if !(validate_file_path file directory) then ErrorCode.AccessViolation
  else if !ex then ErrorCode.FileNotFound
  else ErrorCode.FileExists

/-- Default-initialised resolved options (src/state.rs: block size 512,
transfer size 0, timeout 5 seconds, window size 1). -/
def defaultStateOptions : StateOptions :=
  { blk_size := 512, t_size := 0, timeout := 5, windowsize := 1 }

/-- The loop body of src/state.rs `parse_options`, threading the
accumulated `StateOptions` and rebuilding the (possibly rewritten)
option vector.  The `TransferSize` arm rewrites the option value in
place to the file size; `Timeout` and `Windowsize` reject a zero value,
and `Windowsize` also rejects values above `u16::MAX`; later duplicates
overwrite earlier ones. -/
def parseGo (file_size : Nat) :
    List TransferOption → StateOptions →
    Except String (StateOptions × List TransferOption)
  | [], so => Except.ok (so, [])
  | o :: rest, so =>
    match o.option with
    | OptionType.BlockSize =>
      match parseGo file_size rest { so with blk_size := o.value } with
      | Except.ok p => Except.ok (p.1, o :: p.2)
      | Except.error e => Except.error e
    | OptionType.TransferSize =>
      match parseGo file_size rest { so with t_size := file_size } with
      | Except.ok p => Except.ok (p.1, { o with value := file_size } :: p.2)
      | Except.error e => Except.error e
    | OptionType.Timeout =>
      if o.value = 0 then Except.error "Invalid timeout value"
      else
        match parseGo file_size rest { so with timeout := o.value } with
        | Except.ok p => Except.ok (p.1, o :: p.2)
        | Except.error e => Except.error e
    | OptionType.Windowsize =>
      if o.value = 0 ∨ o.value > 65535 then Except.error "Invalid windowsize value"
      else
        match parseGo file_size rest { so with windowsize := o.value } with
        | Except.ok p => Except.ok (p.1, o :: p.2)
        | Except.error e => Except.error e

/-- src/state.rs `parse_options`: resolve the requested options against
the file size, also returning the rewritten option vector (the Rust
function mutates the vector in place). -/
def parse_options (options : List TransferOption) (file_size : Nat) :
    Except String (StateOptions × List TransferOption) :=
  parseGo file_size options defaultStateOptions

/-- One `file.read(&mut buf)` with a buffer of `n` bytes: returns the
bytes read (at most `n`, fewer only at end of file) and the advanced
handle. -/
def fileRead (f : FileH) (n : Nat) : Chunk × FileH :=
  let buf := (f.bytes.drop f.pos).take n
  (buf, ⟨f.bytes, f.pos + buf.length⟩)

/-- The read loop of src/server.rs `fill_window` (`for _ in 0..to_fill`):
read `blk_size`-byte chunks, set the `unfilled` flag on a short or empty
read, stop immediately on an empty read, truncate and keep a short one. -/
def fillLoop : Nat → Window → Nat → FileH → Bool → Bool × Window × FileH
  | 0, w, _, f, unfilled => (unfilled, w, f)
  | Nat.succ n, w, blk, f, unfilled =>
    let r := fileRead f blk
    let read := r.1.length
    let unfilled' := if read = 0 ∨ read < blk then true else unfilled
    if read = 0 then (unfilled', w, r.2)
    else fillLoop n (w ++ [r.1]) blk r.2 unfilled'

/-- src/server.rs `fill_window`: top up the window to `windowsize`
chunks.  `current` is the `as u16` cast of the length and `to_fill`
uses u16 subtraction (wrapping semantics). -/
def fill_window (w : Window) (so : StateOptions) (f : FileH) :
    Bool × Window × FileH :=
  let current := w.length % 65536
  let toFill := (so.windowsize % 65536 + 65536 - current) % 65536
  if toFill = 0 then (false, w, f)
  else fillLoop toFill w so.blk_size f false

/-- Emit Data packets for the window in order, numbering from `bn` with
16-bit wraparound (src/server.rs `send_window`). -/
def numberFrom (bn : Nat) : Window → List OutPacket
  | [] => []
  | c :: cs => OutPacket.data (bn % 65536) c :: numberFrom (bn + 1) cs

/-- src/server.rs `send_window` on a transfer state. -/
def send_window (s : State) : List OutPacket :=
  numberFrom s.block_number s.window

/-- src/server.rs `process_send`: refill the window, overwrite the
completion flag with the fill result, transmit the window. -/
def process_send (s : State) : State × List OutPacket :=
  let r := fill_window s.window s.options s.file
  let s' : State := { s with finished := r.1, window := r.2.1, file := r.2.2 }
  (s', send_window s')

/-- 16-bit `wrapping_sub` on values taken mod 2^16. -/
def wrapSub (a b : Nat) : Nat :=
  (a % 65536 + 65536 - b % 65536) % 65536

/-- Pop `n` chunks off the BACK of the window: `Vec::pop` removes the
last element, and popping an empty vector is a no-op. -/
def popBackN (n : Nat) (w : Window) : Window :=
  w.take (w.length - n)

/-- The drain step inside src/server.rs `handle_ack`: if
`diff = ack − block_number (mod 2^16)` is at most the window size,
advance the block number past the acknowledged block and pop `diff + 1`
chunks (u16 arithmetic, so `diff + 1` wraps). -/
def drain (s : State) (ack_block_number : Nat) : State :=
  let diff := wrapSub ack_block_number s.block_number
  if diff ≤ s.options.windowsize then
    { s with
      block_number := (ack_block_number % 65536 + 1) % 65536,
      window := popBackN ((diff + 1) % 65536) s.window }
  else s

/-- src/server.rs `end_session`: drop the connection-table entry;
nothing is transmitted. -/
def end_session (conn : ConnMap) (a : Addr) : ConnMap × List OutPacket :=
  (updateConn conn a none, [])

/-- src/server.rs `handle_ack`: look up the state (an unknown address is
a local error), drain if the acknowledgment is in-window, then — in all
cases — either end the session when the completion flag is set or refill
and retransmit the window. -/
def handle_ack (conn : ConnMap) (ack_block_number : Nat) (a : Addr) :
    Except String (ConnMap × List OutPacket) :=
  match conn a with
  | none => Except.error "missing state"
  | some s0 =>
    let s1 := drain s0 ack_block_number
    if s1.finished then Except.ok (end_session (updateConn conn a (some s1)) a)
    else
      let r := process_send s1
      Except.ok (updateConn conn a (some r.1), r.2)

/-- src/server.rs `handle_rrq`: join the filename onto the root, check
path validity then existence, negotiate options, create and insert the
transfer state (block number 0 with options, else 1), then send either a
single OptionAck or the first window of Data.  A negotiation or
metadata failure propagates as an error with nothing sent and no state
created.  `fs` maps existing paths to their contents. -/
def handle_rrq (conn : ConnMap) (directory : PathM) (fs : PathM → Option (List Byte))
    (filename : PathM) (options : List TransferOption) (a : Addr) :
    Except String Unit × ConnMap × List OutPacket :=
  let file_path := joinPath directory filename
  match check_file_exists file_path directory (fs file_path).isSome with
  | ErrorCode.FileNotFound =>
    (Except.ok (), conn, [OutPacket.err ErrorCode.FileNotFound "file does not exist"])
  | ErrorCode.AccessViolation =>
    (Except.ok (), conn, [OutPacket.err ErrorCode.AccessViolation "file access violation"])
  | ErrorCode.FileExists =>
    match fs file_path with
    | none => (Except.error "no metadata", conn, [])
    | some bytes =>
      match parse_options options bytes.length with
      | Except.error e => (Except.error e, conn, [])
      | Except.ok p =>
        let st : State :=
          { file := ⟨bytes, 0⟩
            options := p.1
            block_number := if p.2.length > 0 then 0 else 1
            window := []
            finished := false }
        let conn1 := updateConn conn a (some st)
        if p.2.length > 0 then
          (Except.ok (), conn1, [OutPacket.oack p.2])
        else
          let r := process_send st
          (Except.ok (), updateConn conn1 a (some r.1), r.2)
  | _ =>
    (Except.ok (), conn, [OutPacket.err ErrorCode.NotDefined "unexpected error"])

/-- The acknowledgment a batch-acking client sends in the state it
observes: the last block of the batch it just received; after an
OptionAck (empty window, transfer not finished) it sends Ack(0) for the
initial block number 0; when the server went silent (empty window,
finished) it re-sends its previous acknowledgment, one before the
current block number. -/
def ackFor (s : State) : Nat :=
  if s.window.length = 0 then
    if s.finished then (s.block_number + 65535) % 65536
    else s.block_number % 65536
  else (s.block_number + (s.window.length - 1)) % 65536

/-- Drive one transfer to completion against the batch-acking client:
feed `ackFor` into `handle_ack` until the connection-table entry
disappears, collecting everything sent.  The Bool reports whether the
entry was actually removed within `fuel` steps. -/
def lockstepRun : Nat → ConnMap → Addr → List OutPacket × Bool
  | 0, _, _ => ([], false)
  | Nat.succ fuel, conn, a =>
    match conn a with
    | none => ([], true)
    | some s =>
      match handle_ack conn (ackFor s) a with
      | Except.error _ => ([], false)
      | Except.ok r =>
        let rest := lockstepRun fuel r.1 a
        (r.2 ++ rest.1, rest.2)

/-- A complete served read request: `handle_rrq` into an empty table,
then the lockstep client dialogue. -/
def serveRead (directory : PathM) (fs : PathM → Option (List Byte))
    (filename : PathM) (options : List TransferOption) (fuel : Nat) :
    Except String Unit × List OutPacket × Bool :=
  let r := handle_rrq conn0 directory fs filename options 0
  match r.1 with
  | Except.error e => (Except.error e, r.2.2, false)
  | Except.ok _ =>
    let rest := lockstepRun fuel r.2.1 0
    (Except.ok (), r.2.2 ++ rest.1, rest.2)

/-- The payloads of the Data packets of a transmission log, in order. -/
def sentPayloads (l : List OutPacket) : List Chunk :=
  l.filterMap (fun p => match p with
    | OutPacket.data _ c => some c
    | _ => none)

/-- The Data packets of a transmission log, in order. -/
def sentData (l : List OutPacket) : List OutPacket :=
  l.filter (fun p => match p with
    | OutPacket.data _ _ => true
    | _ => false)

/-- Split a byte list into `blk`-sized chunks (the final chunk shorter
when the length is not a multiple; no empty chunk is produced).  Fueled
so the definition is structural; intended for `1 ≤ blk` with fuel at
least the length. -/
def chunksOfGo : Nat → Nat → List Byte → List Chunk
  | 0, _, _ => []
  | Nat.succ _, _, [] => []
  | Nat.succ fuel, blk, b :: bs =>
    (b :: bs).take blk :: chunksOfGo fuel blk ((b :: bs).drop blk)

/-- Reference chunking of a whole byte list. -/
def chunksOf (blk : Nat) (l : List Byte) : List Chunk :=
  chunksOfGo l.length blk l

/-! Concrete instances used by counterexamples and witnesses. -/

/-- Example root directory. -/
def exDir : PathM := ⟨true, ["srv"]⟩

/-- Example requested filename. -/
def exName : PathM := ⟨false, ["f.bin"]⟩

/-- Filesystem holding one four-byte file at the example path. -/
def exFs4 : PathM → Option (List Byte) :=
  fun p => if p = joinPath exDir exName then some [1, 2, 3, 4] else none

/-- Filesystem holding one five-byte file at the example path. -/
def exFs5 : PathM → Option (List Byte) :=
  fun p => if p = joinPath exDir exName then some [1, 2, 3, 4, 5] else none

/-- A finished transfer at block 1 with a three-chunk window and
window size 3. -/
def sFin3 : State := ⟨⟨[], 0⟩, ⟨512, 0, 5, 3⟩, 1, [[1], [2], [3]], true⟩

/-- Table holding `sFin3` at address 0. -/
def connFin3 : ConnMap := updateConn conn0 0 (some sFin3)

/-- An unfinished transfer at block 5 with a full one-chunk window. -/
def sStale : State := ⟨⟨[7], 1⟩, ⟨2, 0, 5, 1⟩, 5, [[7]], false⟩

/-- Table holding `sStale` at address 0. -/
def connStale : ConnMap := updateConn conn0 0 (some sStale)

/-- An unfinished transfer at block 5 with a full one-chunk window,
file fully read. -/
def sGo : State := ⟨⟨[5, 6], 2⟩, ⟨2, 0, 5, 1⟩, 5, [[5, 6]], false⟩

/-- Table holding `sGo` at address 0. -/
def connGo : ConnMap := updateConn conn0 0 (some sGo)

end Tftpd

namespace Tftpd

/-! Helper lemmas. -/

lemma updateConn_same (c : ConnMap) (a : Addr) (v : Option State) :
    updateConn c a v a = v := by
  simp [updateConn]

lemma updateConn_other (c : ConnMap) (a x : Addr) (v : Option State)
    (h : x ≠ a) : updateConn c a v x = c x := by
  simp [updateConn, h]

lemma err_not_mem_numberFrom (code : ErrorCode) (m : String) :
    ∀ (bn : Nat) (w : Window), OutPacket.err code m ∉ numberFrom bn w := by
  intro bn w
  induction w generalizing bn with
  | nil => simp [numberFrom]
  | cons c cs ih => simp [numberFrom, ih]

lemma parseGo_length (fsize : Nat) :
    ∀ (opts : List TransferOption) (so so' : StateOptions)
      (o' : List TransferOption),
      parseGo fsize opts so = Except.ok (so', o') → o'.length = opts.length := by
  intro opts
  induction opts with
  | nil =>
    intro so so' o' h
    simp only [parseGo, Except.ok.injEq, Prod.mk.injEq] at h
    simp [← h.2]
  | cons o rest ih =>
    obtain ⟨ot, v⟩ := o
    intro so so' o' h
    cases ot
    all_goals simp only [parseGo] at h
    case BlockSize =>
      revert h
      cases hrec : parseGo fsize rest { so with blk_size := v } <;> intro h
      · simp at h
      · simp only [Except.ok.injEq, Prod.mk.injEq] at h
        rw [← h.2]
        simp [ih _ _ _ hrec]
    case TransferSize =>
      revert h
      cases hrec : parseGo fsize rest { so with t_size := fsize } <;> intro h
      · simp at h
      · simp only [Except.ok.injEq, Prod.mk.injEq] at h
        rw [← h.2]
        simp [ih _ _ _ hrec]
    case Timeout =>
      split at h
      · simp at h
      · revert h
        cases hrec : parseGo fsize rest { so with timeout := v } <;> intro h
        · simp at h
        · simp only [Except.ok.injEq, Prod.mk.injEq] at h
          rw [← h.2]
          simp [ih _ _ _ hrec]
    case Windowsize =>
      split at h
      · simp at h
      · revert h
        cases hrec : parseGo fsize rest { so with windowsize := v } <;> intro h
        · simp at h
        · simp only [Except.ok.injEq, Prod.mk.injEq] at h
          rw [← h.2]
          simp [ih _ _ _ hrec]

lemma parseGo_error_of_zero (fsize : Nat) :
    ∀ (opts : List TransferOption) (so : StateOptions),
      (⟨OptionType.Timeout, 0⟩ ∈ opts ∨ ⟨OptionType.Windowsize, 0⟩ ∈ opts) →
      ∃ e, parseGo fsize opts so = Except.error e := by
  intro opts
  induction opts with
  | nil => intro so h; simp at h
  | cons o rest ih =>
    obtain ⟨ot, v⟩ := o
    intro so h
    have hcase :
        ((⟨ot, v⟩ : TransferOption) = ⟨OptionType.Timeout, 0⟩ ∨
          (⟨ot, v⟩ : TransferOption) = ⟨OptionType.Windowsize, 0⟩) ∨
        ((⟨OptionType.Timeout, 0⟩ : TransferOption) ∈ rest ∨
          (⟨OptionType.Windowsize, 0⟩ : TransferOption) ∈ rest) := by
      rcases h with h | h <;> rcases List.mem_cons.mp h with h | h
      · exact Or.inl (Or.inl h.symm)
      · exact Or.inr (Or.inl h)
      · exact Or.inl (Or.inr h.symm)
      · exact Or.inr (Or.inr h)
    rcases hcase with (hhead | hhead) | htail
    · rw [show ot = OptionType.Timeout from congrArg TransferOption.option hhead,
        show v = 0 from congrArg TransferOption.value hhead]
      exact ⟨"Invalid timeout value", by simp [parseGo]⟩
    · rw [show ot = OptionType.Windowsize from congrArg TransferOption.option hhead,
        show v = 0 from congrArg TransferOption.value hhead]
      exact ⟨"Invalid windowsize value", by simp [parseGo]⟩
    · cases ot
      case BlockSize =>
        obtain ⟨e, he⟩ := ih { so with blk_size := v } htail
        exact ⟨e, by simp [parseGo, he]⟩
      case TransferSize =>
        obtain ⟨e, he⟩ := ih { so with t_size := fsize } htail
        exact ⟨e, by simp [parseGo, he]⟩
      case Timeout =>
        by_cases hz : v = 0
        · exact ⟨"Invalid timeout value", by simp [parseGo, hz]⟩
        · obtain ⟨e, he⟩ := ih { so with timeout := v } htail
          exact ⟨e, by simp [parseGo, hz, he]⟩
      case Windowsize =>
        by_cases hz : v = 0 ∨ v > 65535
        · exact ⟨"Invalid windowsize value", by simp [parseGo, hz]⟩
        · obtain ⟨e, he⟩ := ih { so with windowsize := v } htail
          exact ⟨e, by simp [parseGo, hz, he]⟩

lemma parseGo_windowsize (fsize : Nat) :
    ∀ (opts : List TransferOption) (so so' : StateOptions)
      (o' : List TransferOption),
      1 ≤ so.windowsize → so.windowsize ≤ 65535 →
      parseGo fsize opts so = Except.ok (so', o') →
      1 ≤ so'.windowsize ∧ so'.windowsize ≤ 65535 := by
  intro opts
  induction opts with
  | nil =>
    intro so so' o' h1 h2 h
    simp only [parseGo, Except.ok.injEq, Prod.mk.injEq] at h
    rw [← h.1]
    exact ⟨h1, h2⟩
  | cons o rest ih =>
    obtain ⟨ot, v⟩ := o
    intro so so' o' h1 h2 h
    cases ot
    all_goals simp only [parseGo] at h
    case BlockSize =>
      revert h
      cases hrec : parseGo fsize rest { so with blk_size := v } <;> intro h
      · simp at h
      · simp only [Except.ok.injEq, Prod.mk.injEq] at h
        rw [← h.1]
        exact ih { so with blk_size := v } _ _ h1 h2 hrec
    case TransferSize =>
      revert h
      cases hrec : parseGo fsize rest { so with t_size := fsize } <;> intro h
      · simp at h
      · simp only [Except.ok.injEq, Prod.mk.injEq] at h
        rw [← h.1]
        exact ih { so with t_size := fsize } _ _ h1 h2 hrec
    case Timeout =>
      split at h
      · simp at h
      · revert h
        cases hrec : parseGo fsize rest { so with timeout := v } <;> intro h
        · simp at h
        · simp only [Except.ok.injEq, Prod.mk.injEq] at h
          rw [← h.1]
          exact ih { so with timeout := v } _ _ h1 h2 hrec
    case Windowsize =>
      split at h
      · simp at h
      · revert h
        cases hrec : parseGo fsize rest { so with windowsize := v } <;> intro h
        · simp at h
        · simp only [Except.ok.injEq, Prod.mk.injEq] at h
          rw [← h.1]
          rename_i hz
          push_neg at hz
          refine ih { so with windowsize := v } _ _ ?_ ?_ hrec
          · show 1 ≤ v
            omega
          · show v ≤ 65535
            omega

lemma parse_options_windowsize (opts : List TransferOption) (n : Nat)
    (so : StateOptions) (o' : List TransferOption)
    (h : parse_options opts n = Except.ok (so, o')) :
    1 ≤ so.windowsize ∧ so.windowsize ≤ 65535 :=
  parseGo_windowsize n opts defaultStateOptions so o' (by decide) (by decide) h

lemma isPrefixOf_append (l t : List Char) : l.isPrefixOf (l ++ t) = true := by
  induction l with
  | nil =>
    rw [List.nil_append]
    cases t <;> rfl
  | cons c cs ih => simp [List.isPrefixOf, ih]

lemma hasSubstring_of_isPrefixOf (pat l : List Char)
    (h : pat.isPrefixOf l = true) : hasSubstring pat l = true := by
  cases l with
  | nil =>
    cases pat with
    | nil => rfl
    | cons c cs => simp [List.isPrefixOf] at h
  | cons c rest => simp [hasSubstring, h]

lemma hasSubstring_append_right (pat l1 l2 : List Char)
    (h : hasSubstring pat l2 = true) : hasSubstring pat (l1 ++ l2) = true := by
  induction l1 with
  | nil =>
    rw [List.nil_append]
    exact h
  | cons c cs ih =>
    simp only [List.cons_append, hasSubstring]
    simp [ih]

lemma mem_sepJoin_hasSubstring :
    ∀ (comps : List String) (s : String), s ∈ comps →
      hasSubstring s.data (sepJoin (comps.map String.data)) = true := by
  intro comps
  induction comps with
  | nil => intro s h; simp at h
  | cons c rest ih =>
    intro s h
    rcases List.mem_cons.mp h with rfl | h
    · cases rest with
      | nil =>
        simp only [List.map_cons, List.map_nil, sepJoin]
        have hp0 := isPrefixOf_append s.data []
        rw [List.append_nil] at hp0
        exact hasSubstring_of_isPrefixOf _ _ hp0
      | cons c2 rest2 =>
        simp only [List.map_cons, sepJoin]
        exact hasSubstring_of_isPrefixOf _ _ (isPrefixOf_append s.data _)
    · cases rest with
      | nil => simp at h
      | cons c2 rest2 =>
        simp only [List.map_cons, sepJoin]
        have hmain := ih s h
        simp only [List.map_cons] at hmain
        have h2 : (c.data ++ '/' :: sepJoin (c2.data :: rest2.map String.data))
            = (c.data ++ ['/']) ++ sepJoin (c2.data :: rest2.map String.data) := by
          simp
        rw [h2]
        exact hasSubstring_append_right _ _ _ hmain

lemma dotdot_mem_comps (p : PathM) (h : (".." : String) ∈ p.comps) :
    hasSubstring dotdot (pathChars p) = true := by
  have h1 : hasSubstring (String.data "..") (sepJoin (p.comps.map String.data)) = true :=
    mem_sepJoin_hasSubstring _ _ h
  have h2 : String.data ".." = dotdot := rfl
  unfold pathChars
  exact hasSubstring_append_right _ _ _ (h2 ▸ h1)

lemma handle_ack_some (conn : ConnMap) (a : Addr) (s : State) (b : Nat)
    (h : conn a = some s) :
    handle_ack conn b a =
      if (drain s b).finished then
        Except.ok (updateConn (updateConn conn a (some (drain s b))) a none, [])
      else
        Except.ok (updateConn conn a (some (process_send (drain s b)).1),
          (process_send (drain s b)).2) := by
  simp only [handle_ack, h, end_session]

lemma handle_rrq_success (conn : ConnMap) (dir : PathM)
    (fs : PathM → Option (List Byte)) (fname : PathM)
    (opts : List TransferOption) (a : Addr)
    (bytes : List Byte) (so : StateOptions) (opts' : List TransferOption)
    (hv : validate_file_path (joinPath dir fname) dir = true)
    (hfs : fs (joinPath dir fname) = some bytes)
    (hp : parse_options opts bytes.length = Except.ok (so, opts')) :
    handle_rrq conn dir fs fname opts a =
      if opts'.length > 0 then
        (Except.ok (), updateConn conn a (some ⟨⟨bytes, 0⟩, so, 0, [], false⟩),
          [OutPacket.oack opts'])
      else
        (Except.ok (),
          updateConn (updateConn conn a (some ⟨⟨bytes, 0⟩, so, 1, [], false⟩)) a
            (some (process_send ⟨⟨bytes, 0⟩, so, 1, [], false⟩).1),
          (process_send ⟨⟨bytes, 0⟩, so, 1, [], false⟩).2) := by
  by_cases hlen : opts'.length > 0 <;>
    simp [handle_rrq, check_file_exists, hv, hfs, hp, hlen]

end Tftpd

namespace Tftpd

/-! Claim theorems. -/

/-- C1 (code evaluation at the failing input): with current block 1,
window size 3 and in-flight window `[[1], [2], [3]]`, handling `Ack(1)`
(diff 0) advances the block number to 2 but removes the chunk from the
BACK of the window — the state keeps `[[1], [2]]`, not the front-removal
result `[[2], [3]]` that the claim asserts. -/
theorem c1_ack_drain_pops_from_back :
    (drain sFin3 1).block_number = 2 ∧
    (drain sFin3 1).window = [[1], [2]] ∧
    (drain sFin3 1).window ≠ sFin3.window.drop 1 := by
  exact ⟨by decide, by decide, by decide⟩

/-- C3 (counterexample): an acknowledgment with
`diff = (3 − 5) mod 2^16 = 65534 > windowsize = 1` is NOT ignored
entirely — the server still refills and retransmits the window, sending
`Data(5, [7])`. -/
theorem c3_counterexample_stale_ack_retransmits :
    sStale.options.windowsize < wrapSub 3 sStale.block_number ∧
    handle_ack connStale 3 0 =
      Except.ok (updateConn connStale 0 (some (process_send sStale).1),
        [OutPacket.data 5 [7]]) ∧
    ([OutPacket.data 5 [7]] : List OutPacket) ≠ [] := by
  exact ⟨by decide, rfl, by simp⟩

/-- C3 (amended): an acknowledgment with `diff > windowsize` skips only
the drain (block number and window are not drained), but the handler
still proceeds: if the completion flag is set the entry is removed,
otherwise the window is refilled and retransmitted. -/
theorem c3_stale_ack_skips_drain_only (conn : ConnMap) (a : Addr)
    (s : State) (b : Nat) (h : conn a = some s)
    (hdiff : s.options.windowsize < wrapSub b s.block_number) :
    drain s b = s ∧
    handle_ack conn b a =
      if s.finished then
        Except.ok (updateConn (updateConn conn a (some s)) a none, [])
      else
        Except.ok (updateConn conn a (some (process_send s).1),
          (process_send s).2) := by
  have hd : drain s b = s := by
    simp [drain, Nat.not_le.mpr hdiff]
  refine ⟨hd, ?_⟩
  rw [handle_ack_some conn a s b h, hd]

/-- C3 witness: the amended statement applied to the concrete stale
acknowledgment. -/
theorem c3_stale_ack_skips_drain_only_witness :
    drain sStale 3 = sStale ∧
    handle_ack connStale 3 0 =
      if sStale.finished then
        Except.ok (updateConn (updateConn connStale 0 (some sStale)) 0 none, [])
      else
        Except.ok (updateConn connStale 0 (some (process_send sStale).1),
          (process_send sStale).2) :=
  c3_stale_ack_skips_drain_only connStale 0 sStale 3 rfl (by decide)

/-- C4 (counterexample): draining `Ack(1)` on a finished transfer with
window `[[1], [2], [3]]` leaves a NON-empty window `[[1], [2]]`, yet the
entry is removed — removal is not conditioned on the window being fully
drained. -/
theorem c4_counterexample_removed_with_nonempty_window :
    handle_ack connFin3 1 0 =
      Except.ok (updateConn (updateConn connFin3 0 (some (drain sFin3 1))) 0 none, []) ∧
    updateConn (updateConn connFin3 0 (some (drain sFin3 1))) 0 none 0 = none ∧
    (drain sFin3 1).window = [[1], [2]] ∧
    ([[1], [2]] : Window) ≠ [] := by
  exact ⟨rfl, rfl, by decide, by simp⟩

/-- C4 (amended): after an in-window acknowledgment the entry is removed
exactly when the completion flag is set, regardless of whether the window
drained empty; otherwise the refilled window is retransmitted and the
entry remains. -/
theorem c4_removal_iff_finished (conn : ConnMap) (a : Addr) (s : State)
    (b : Nat) (h : conn a = some s)
    (hdiff : wrapSub b s.block_number ≤ s.options.windowsize) :
    (s.finished = true →
      handle_ack conn b a =
        Except.ok (updateConn (updateConn conn a (some (drain s b))) a none, []) ∧
      updateConn (updateConn conn a (some (drain s b))) a none a = none) ∧
    (s.finished = false →
      handle_ack conn b a =
        Except.ok (updateConn conn a (some (process_send (drain s b)).1),
          (process_send (drain s b)).2) ∧
      updateConn conn a (some (process_send (drain s b)).1) a
        = some (process_send (drain s b)).1) := by
  have hfin : (drain s b).finished = s.finished := by
    simp only [drain]
    split <;> rfl
  constructor
  · intro hf
    rw [handle_ack_some conn a s b h, if_pos (by rw [hfin, hf])]
    exact ⟨rfl, updateConn_same _ _ _⟩
  · intro hf
    rw [handle_ack_some conn a s b h,
      if_neg (by rw [hfin, hf]; exact Bool.false_ne_true)]
    exact ⟨rfl, updateConn_same _ _ _⟩

/-- C4 witness: the amended statement applied to an unfinished transfer
acknowledging its single-chunk window. -/
theorem c4_removal_iff_finished_witness :
    handle_ack connGo 5 0 =
      Except.ok (updateConn connGo 0 (some (process_send (drain sGo 5)).1),
        (process_send (drain sGo 5)).2) ∧
    updateConn connGo 0 (some (process_send (drain sGo 5)).1) 0
      = some (process_send (drain sGo 5)).1 :=
  (c4_removal_iff_finished connGo 0 sGo 5 rfl (by decide)).2 rfl

/-- C5: path validation decides before any existence check — a joined
path containing a parent-directory component, or whose ancestors do not
include the configured root, is answered with AccessViolation no matter
what the filesystem holds; a path passing validation that names no file
is answered with FileNotFound.  In both cases the table is unchanged. -/
theorem c5_validation_before_existence (conn : ConnMap) (dir : PathM)
    (fs : PathM → Option (List Byte)) (fname : PathM)
    (opts : List TransferOption) (a : Addr) :
    (((".." : String) ∈ (joinPath dir fname).comps ∨
        dir ∉ ancestors (joinPath dir fname)) →
      handle_rrq conn dir fs fname opts a =
        (Except.ok (), conn,
          [OutPacket.err ErrorCode.AccessViolation "file access violation"])) ∧
    (validate_file_path (joinPath dir fname) dir = true →
      fs (joinPath dir fname) = none →
      handle_rrq conn dir fs fname opts a =
        (Except.ok (), conn,
          [OutPacket.err ErrorCode.FileNotFound "file does not exist"])) := by
  constructor
  · intro h
    have hv : validate_file_path (joinPath dir fname) dir = false := by
      rcases h with h | h
      · simp [validate_file_path, dotdot_mem_comps _ h]
      · simp [validate_file_path, h]
    simp [handle_rrq, check_file_exists, hv]
  · intro hv hfs
    simp [handle_rrq, check_file_exists, hv, hfs]

/-- C5 witness: a parent-directory request is rejected with
AccessViolation even though the path does not exist, and a clean missing
path gets FileNotFound. -/
theorem c5_validation_before_existence_witness :
    handle_rrq conn0 exDir exFs4 (⟨false, ["..", "secret"]⟩ : PathM) [] 0 =
      (Except.ok (), conn0,
        [OutPacket.err ErrorCode.AccessViolation "file access violation"]) ∧
    handle_rrq conn0 exDir exFs4 (⟨false, ["missing.bin"]⟩ : PathM) [] 0 =
      (Except.ok (), conn0,
        [OutPacket.err ErrorCode.FileNotFound "file does not exist"]) :=
  ⟨(c5_validation_before_existence conn0 exDir exFs4 ⟨false, ["..", "secret"]⟩ [] 0).1
      (Or.inl (by decide)),
    (c5_validation_before_existence conn0 exDir exFs4 ⟨false, ["missing.bin"]⟩ [] 0).2
      (by decide) (by decide)⟩

/-- C6 (counterexample): a read request for an existing, validated file
carrying `Timeout=0` produces NO packet at all — in particular no
NotDefined Error packet — the failure only propagates as a local error. -/
theorem c6_counterexample_no_error_packet :
    validate_file_path (joinPath exDir exName) exDir = true ∧
    exFs4 (joinPath exDir exName) = some [1, 2, 3, 4] ∧
    (handle_rrq conn0 exDir exFs4 exName [⟨OptionType.Timeout, 0⟩] 0).1
      = Except.error "Invalid timeout value" ∧
    (handle_rrq conn0 exDir exFs4 exName [⟨OptionType.Timeout, 0⟩] 0).2.2 = [] := by
  exact ⟨by decide, by decide, rfl, rfl⟩

/-- C6 (amended): an option list containing `Timeout=0` or
`WindowSize=0` always fails negotiation; the request creates no state
and sends nothing — the error is merely propagated to the caller, which
only logs it. -/
theorem c6_zero_option_rejected_silently (conn : ConnMap) (dir : PathM)
    (fs : PathM → Option (List Byte)) (fname : PathM)
    (opts : List TransferOption) (a : Addr) (bytes : List Byte)
    (hv : validate_file_path (joinPath dir fname) dir = true)
    (hfs : fs (joinPath dir fname) = some bytes)
    (hmem : (⟨OptionType.Timeout, 0⟩ : TransferOption) ∈ opts ∨
      (⟨OptionType.Windowsize, 0⟩ : TransferOption) ∈ opts) :
    ∃ e, parse_options opts bytes.length = Except.error e ∧
      handle_rrq conn dir fs fname opts a = (Except.error e, conn, []) := by
  obtain ⟨e, he⟩ := parseGo_error_of_zero bytes.length opts defaultStateOptions hmem
  have hpe : parse_options opts bytes.length = Except.error e := he
  exact ⟨e, hpe, by simp [handle_rrq, check_file_exists, hv, hfs, hpe]⟩

/-- C6 witness: the amended statement at the concrete `Timeout=0`
request. -/
theorem c6_zero_option_rejected_silently_witness :
    ∃ e, parse_options [⟨OptionType.Timeout, 0⟩] ([1, 2, 3, 4] : List Byte).length
        = Except.error e ∧
      handle_rrq conn0 exDir exFs4 exName [⟨OptionType.Timeout, 0⟩] 0
        = (Except.error e, conn0, []) :=
  c6_zero_option_rejected_silently conn0 exDir exFs4 exName
    [⟨OptionType.Timeout, 0⟩] 0 [1, 2, 3, 4] (by decide) (by decide)
    (Or.inl (by simp))

/-- C7 (code evaluation at the failing input): negotiating an EMPTY
option list for a 12345678-byte file leaves the resolved transfer size
at 0, not at the actual file size — contradicting the claim and the
repository's own unit test `parses_default_options`. -/
theorem c7_empty_options_tsize_zero :
    parse_options [] 12345678 =
      Except.ok ((⟨512, 0, 5, 1⟩ : StateOptions), ([] : List TransferOption)) ∧
    (⟨512, 0, 5, 1⟩ : StateOptions).t_size ≠ 12345678 := by
  exact ⟨rfl, by decide⟩

/-- C8: a validated, negotiated request creates state with block number
0 and answers with a single OptionAck when the option list is non-empty,
and creates state with block number 1 and immediately fills and sends
the first window of Data otherwise. -/
theorem c8_initial_block_number_and_first_response (conn : ConnMap)
    (dir : PathM) (fs : PathM → Option (List Byte)) (fname : PathM)
    (opts : List TransferOption) (a : Addr)
    (bytes : List Byte) (so : StateOptions) (opts' : List TransferOption)
    (hv : validate_file_path (joinPath dir fname) dir = true)
    (hfs : fs (joinPath dir fname) = some bytes)
    (hp : parse_options opts bytes.length = Except.ok (so, opts')) :
    (opts ≠ [] →
      handle_rrq conn dir fs fname opts a =
        (Except.ok (), updateConn conn a (some ⟨⟨bytes, 0⟩, so, 0, [], false⟩),
          [OutPacket.oack opts'])) ∧
    (opts = [] →
      handle_rrq conn dir fs fname opts a =
        (Except.ok (),
          updateConn (updateConn conn a (some ⟨⟨bytes, 0⟩, so, 1, [], false⟩)) a
            (some (process_send ⟨⟨bytes, 0⟩, so, 1, [], false⟩).1),
          (process_send ⟨⟨bytes, 0⟩, so, 1, [], false⟩).2) ∧
      (process_send (⟨⟨bytes, 0⟩, so, 1, [], false⟩ : State)).1.block_number = 1 ∧
      (process_send (⟨⟨bytes, 0⟩, so, 1, [], false⟩ : State)).2 =
        numberFrom 1 (process_send (⟨⟨bytes, 0⟩, so, 1, [], false⟩ : State)).1.window) := by
  have hlen : opts'.length = opts.length := parseGo_length _ _ _ _ _ hp
  constructor
  · intro hne
    rw [handle_rrq_success conn dir fs fname opts a bytes so opts' hv hfs hp,
      if_pos (by rw [hlen]; exact List.length_pos.mpr hne)]
  · intro hnil
    subst hnil
    rw [handle_rrq_success conn dir fs fname [] a bytes so opts' hv hfs hp,
      if_neg (by simp [hlen])]
    refine ⟨rfl, by simp [process_send], ?_⟩
    simp [process_send, send_window]

/-- C8 witness: the two branches at concrete requests (one `blksize=2`
option, and no options). -/
theorem c8_initial_block_number_and_first_response_witness :
    handle_rrq conn0 exDir exFs4 exName [⟨OptionType.BlockSize, 2⟩] 0 =
      (Except.ok (),
        updateConn conn0 0 (some ⟨⟨[1, 2, 3, 4], 0⟩, ⟨2, 0, 5, 1⟩, 0, [], false⟩),
        [OutPacket.oack [⟨OptionType.BlockSize, 2⟩]]) ∧
    handle_rrq conn0 exDir exFs4 exName [] 0 =
      (Except.ok (),
        updateConn (updateConn conn0 0
            (some ⟨⟨[1, 2, 3, 4], 0⟩, ⟨512, 0, 5, 1⟩, 1, [], false⟩)) 0
          (some (process_send ⟨⟨[1, 2, 3, 4], 0⟩, ⟨512, 0, 5, 1⟩, 1, [], false⟩).1),
        (process_send ⟨⟨[1, 2, 3, 4], 0⟩, ⟨512, 0, 5, 1⟩, 1, [], false⟩).2) :=
  ⟨(c8_initial_block_number_and_first_response conn0 exDir exFs4 exName
      [⟨OptionType.BlockSize, 2⟩] 0 [1, 2, 3, 4] ⟨2, 0, 5, 1⟩
      [⟨OptionType.BlockSize, 2⟩] (by decide) (by decide) rfl).1 (by simp),
    ((c8_initial_block_number_and_first_response conn0 exDir exFs4 exName
      [] 0 [1, 2, 3, 4] ⟨512, 0, 5, 1⟩ [] (by decide) (by decide) rfl).2 rfl).1⟩

/-- C9: a valid read request from an address that already has a live
entry silently replaces it — the lookup afterwards yields exactly the
new state (independent of the old one), every other address is
untouched, no Error packet is sent, and the handler succeeds. -/
theorem c9_new_request_replaces_entry (conn : ConnMap) (dir : PathM)
    (fs : PathM → Option (List Byte)) (fname : PathM)
    (opts : List TransferOption) (a : Addr)
    (bytes : List Byte) (so : StateOptions) (opts' : List TransferOption)
    (sOld : State) (_hold : conn a = some sOld)
    (hv : validate_file_path (joinPath dir fname) dir = true)
    (hfs : fs (joinPath dir fname) = some bytes)
    (hp : parse_options opts bytes.length = Except.ok (so, opts')) :
    (handle_rrq conn dir fs fname opts a).2.1 a =
      some (if opts'.length > 0 then (⟨⟨bytes, 0⟩, so, 0, [], false⟩ : State)
            else (process_send ⟨⟨bytes, 0⟩, so, 1, [], false⟩).1) ∧
    (∀ x, x ≠ a → (handle_rrq conn dir fs fname opts a).2.1 x = conn x) ∧
    (∀ c m, OutPacket.err c m ∉ (handle_rrq conn dir fs fname opts a).2.2) ∧
    (handle_rrq conn dir fs fname opts a).1 = Except.ok () := by
  rw [handle_rrq_success conn dir fs fname opts a bytes so opts' hv hfs hp]
  by_cases hlen : opts'.length > 0
  · simp only [if_pos hlen]
    refine ⟨?_, ?_, ?_, ?_⟩
    · simp [updateConn_same]
    · intro x hx
      simp [updateConn_other _ _ _ _ hx]
    · intro c m
      simp
    · trivial
  · simp only [if_neg hlen]
    refine ⟨?_, ?_, ?_, ?_⟩
    · simp [updateConn_same]
    · intro x hx
      simp [updateConn_other _ _ _ _ hx]
    · intro c m
      simp only [process_send, send_window]
      exact err_not_mem_numberFrom c m _ _
    · trivial

/-- C9 witness: a fresh no-option request from address 0, which already
holds a live transfer, replaces that entry. -/
theorem c9_new_request_replaces_entry_witness :
    (handle_rrq connStale exDir exFs4 exName [] 0).2.1 0 =
      some (if ([] : List TransferOption).length > 0 then
              (⟨⟨[1, 2, 3, 4], 0⟩, ⟨512, 0, 5, 1⟩, 0, [], false⟩ : State)
            else (process_send ⟨⟨[1, 2, 3, 4], 0⟩, ⟨512, 0, 5, 1⟩, 1, [], false⟩).1) ∧
    (∀ x, x ≠ 0 → (handle_rrq connStale exDir exFs4 exName [] 0).2.1 x = connStale x) ∧
    (∀ c m, OutPacket.err c m ∉ (handle_rrq connStale exDir exFs4 exName [] 0).2.2) ∧
    (handle_rrq connStale exDir exFs4 exName [] 0).1 = Except.ok () :=
  c9_new_request_replaces_entry connStale exDir exFs4 exName [] 0
    [1, 2, 3, 4] ⟨512, 0, 5, 1⟩ [] sStale rfl (by decide) (by decide) rfl

/-- C10: the request is answered with AccessViolation exactly when the
rendered joined path contains the two-character substring `..` anywhere
(also inside a single filename) or the configured root is not verbatim
among the unnormalized path's ancestors; in particular `a..b.txt`
directly under the root is rejected although the root IS among its
ancestors. -/
theorem c10_access_violation_characterization (f d : PathM) (ex : Bool) :
    (check_file_exists f d ex = ErrorCode.AccessViolation ↔
      (hasSubstring dotdot (pathChars f) = true ∨ d ∉ ancestors f)) ∧
    check_file_exists ⟨true, ["dir", "test", "a..b.txt"]⟩
        ⟨true, ["dir", "test"]⟩ true = ErrorCode.AccessViolation ∧
    (⟨true, ["dir", "test"]⟩ : PathM) ∈
      ancestors ⟨true, ["dir", "test", "a..b.txt"]⟩ := by
  refine ⟨?_, by decide, by decide⟩
  unfold check_file_exists validate_file_path
  cases hb : hasSubstring dotdot (pathChars f)
  · by_cases h2 : d ∈ ancestors f
    · cases ex <;> simp [hb, h2]
    · simp [hb, h2]
  · simp [hb]

end Tftpd

namespace Tftpd

/-! Lemmas about `chunksOf`. -/

lemma chunksOfGo_nil (fuel blk : Nat) : chunksOfGo fuel blk [] = [] := by
  cases fuel <;> rfl

lemma chunksOfGo_congr (blk : Nat) (hb : 1 ≤ blk) :
    ∀ (f1 f2 : Nat) (l : List Byte), l.length ≤ f1 → l.length ≤ f2 →
      chunksOfGo f1 blk l = chunksOfGo f2 blk l := by
  intro f1
  induction f1 with
  | zero =>
    intro f2 l h1 h2
    have hl : l = [] := List.eq_nil_of_length_eq_zero (Nat.le_zero.mp h1)
    subst hl
    simp [chunksOfGo_nil]
  | succ f1 ih =>
    intro f2 l h1 h2
    cases l with
    | nil => simp [chunksOfGo_nil]
    | cons b bs =>
      cases f2 with
      | zero =>
        simp only [List.length_cons] at h2
        omega
      | succ f2 =>
        simp only [chunksOfGo]
        congr 1
        apply ih
        · simp only [List.length_drop, List.length_cons] at *
          omega
        · simp only [List.length_drop, List.length_cons] at *
          omega

lemma chunksOf_cons (blk : Nat) (hb : 1 ≤ blk) (l : List Byte) (hl : l ≠ []) :
    chunksOf blk l = l.take blk :: chunksOf blk (l.drop blk) := by
  obtain ⟨b, bs, rfl⟩ := List.exists_cons_of_ne_nil hl
  show chunksOfGo (b :: bs).length blk (b :: bs) = _
  simp only [List.length_cons, chunksOfGo]
  congr 1
  apply chunksOfGo_congr blk hb
  · simp only [List.length_drop, List.length_cons]
    omega
  · exact Nat.le_refl _

lemma chunksOf_nil (blk : Nat) : chunksOf blk [] = [] := rfl

lemma chunksOf_eq_nil_iff (blk : Nat) (hb : 1 ≤ blk) (l : List Byte) :
    chunksOf blk l = [] ↔ l = [] := by
  constructor
  · intro h
    by_contra hne
    rw [chunksOf_cons blk hb l hne] at h
    simp at h
  · intro h
    subst h
    rfl

lemma join_chunksOf_bounded (blk : Nat) (hb : 1 ≤ blk) :
    ∀ (n : Nat) (l : List Byte), l.length ≤ n → (chunksOf blk l).flatten = l := by
  intro n
  induction n with
  | zero =>
    intro l h
    have hl : l = [] := List.eq_nil_of_length_eq_zero (Nat.le_zero.mp h)
    subst hl
    rfl
  | succ n ih =>
    intro l h
    by_cases hl : l = []
    · subst hl
      rfl
    · rw [chunksOf_cons blk hb l hl]
      have hlp := List.length_pos.mpr hl
      simp only [List.flatten_cons]
      rw [ih (l.drop blk) (by simp only [List.length_drop]; omega)]
      exact List.take_append_drop blk l

lemma join_chunksOf (blk : Nat) (hb : 1 ≤ blk) (l : List Byte) :
    (chunksOf blk l).flatten = l :=
  join_chunksOf_bounded blk hb l.length l (Nat.le_refl _)

lemma chunksOf_length_le (blk : Nat) (hb : 1 ≤ blk) :
    ∀ (k : Nat) (l : List Byte), l.length ≤ k * blk →
      (chunksOf blk l).length ≤ k := by
  intro k
  induction k with
  | zero =>
    intro l h
    have hl : l = [] := List.eq_nil_of_length_eq_zero (by omega)
    subst hl
    simp [chunksOf_nil]
  | succ k ih =>
    intro l h
    by_cases hl : l = []
    · subst hl
      simp [chunksOf_nil]
    · rw [chunksOf_cons blk hb l hl]
      rw [Nat.succ_mul] at h
      have := ih (l.drop blk) (by simp only [List.length_drop]; omega)
      simp only [List.length_cons]
      omega

lemma le_chunksOf_length (blk : Nat) (hb : 1 ≤ blk) :
    ∀ (k : Nat) (l : List Byte), k * blk ≤ l.length →
      k ≤ (chunksOf blk l).length := by
  intro k
  induction k with
  | zero =>
    intro l _
    exact Nat.zero_le _
  | succ k ih =>
    intro l h
    rw [Nat.succ_mul] at h
    have hl : l ≠ [] := by
      intro e
      subst e
      simp at h
      omega
    rw [chunksOf_cons blk hb l hl]
    have := ih (l.drop blk) (by simp only [List.length_drop]; omega)
    simp only [List.length_cons]
    omega

lemma chunksOf_drop (blk : Nat) (hb : 1 ≤ blk) :
    ∀ (k : Nat) (l : List Byte),
      chunksOf blk (l.drop (k * blk)) = (chunksOf blk l).drop k := by
  intro k
  induction k with
  | zero =>
    intro l
    simp
  | succ k ih =>
    intro l
    by_cases hl : l = []
    · subst hl
      simp [chunksOf_nil]
    · rw [chunksOf_cons blk hb l hl, List.drop_succ_cons, ← ih (l.drop blk),
        List.drop_drop]
      congr 2
      rw [Nat.succ_mul]
      omega

lemma join_take_chunksOf (blk : Nat) (hb : 1 ≤ blk) :
    ∀ (k : Nat) (l : List Byte),
      ((chunksOf blk l).take k).flatten = l.take (k * blk) := by
  intro k
  induction k with
  | zero =>
    intro l
    simp
  | succ k ih =>
    intro l
    by_cases hl : l = []
    · subst hl
      simp [chunksOf_nil]
    · rw [chunksOf_cons blk hb l hl]
      simp only [List.take_succ_cons, List.flatten_cons]
      rw [ih (l.drop blk), Nat.succ_mul, Nat.add_comm (k * blk) blk,
        List.take_add]

lemma mem_chunksOf (blk : Nat) (hb : 1 ≤ blk) :
    ∀ (n : Nat) (l : List Byte), l.length ≤ n →
      ∀ c ∈ chunksOf blk l, 0 < c.length ∧ c.length ≤ blk := by
  intro n
  induction n with
  | zero =>
    intro l h
    have hl : l = [] := List.eq_nil_of_length_eq_zero (Nat.le_zero.mp h)
    subst hl
    simp [chunksOf_nil]
  | succ n ih =>
    intro l h
    by_cases hl : l = []
    · subst hl
      simp [chunksOf_nil]
    · rw [chunksOf_cons blk hb l hl]
      intro c hc
      have hlp := List.length_pos.mpr hl
      rcases List.mem_cons.mp hc with rfl | hc
      · simp only [List.length_take]
        omega
      · exact ih (l.drop blk)
          (by simp only [List.length_drop]; omega) c hc

lemma dropLast_chunksOf (blk : Nat) (hb : 1 ≤ blk) :
    ∀ (n : Nat) (l : List Byte), l.length ≤ n →
      ∀ c ∈ (chunksOf blk l).dropLast, c.length = blk := by
  intro n
  induction n with
  | zero =>
    intro l h
    have hl : l = [] := List.eq_nil_of_length_eq_zero (Nat.le_zero.mp h)
    subst hl
    simp [chunksOf_nil]
  | succ n ih =>
    intro l h
    by_cases hl : l = []
    · subst hl
      simp [chunksOf_nil]
    · rw [chunksOf_cons blk hb l hl]
      by_cases h2 : l.drop blk = []
      · rw [(chunksOf_eq_nil_iff blk hb _).mpr h2]
        simp
      · have hcne : chunksOf blk (l.drop blk) ≠ [] := by
          rw [Ne, chunksOf_eq_nil_iff blk hb]
          exact h2
        rw [List.dropLast_cons_of_ne_nil hcne]
        intro c hc
        have hlp := List.length_pos.mpr hl
        rcases List.mem_cons.mp hc with rfl | hc
        · have hblt : blk < l.length := by
            by_contra hcon
            push_neg at hcon
            exact h2 (List.drop_eq_nil_of_le hcon)
          simp only [List.length_take]
          omega
        · exact ih (l.drop blk)
            (by simp only [List.length_drop]; omega) c hc

/-! Lemmas about `numberFrom`, `sentData` and `sentPayloads`. -/

lemma numberFrom_append (bn : Nat) (l1 l2 : Window) :
    numberFrom bn (l1 ++ l2) = numberFrom bn l1 ++ numberFrom (bn + l1.length) l2 := by
  induction l1 generalizing bn with
  | nil => simp [numberFrom]
  | cons c cs ih =>
    show OutPacket.data (bn % 65536) c :: numberFrom (bn + 1) (cs ++ l2) = _
    rw [ih (bn + 1), show bn + 1 + cs.length = bn + (cs.length + 1) from by omega]
    rfl

lemma numberFrom_congr (l : Window) :
    ∀ (b1 b2 : Nat), b1 % 65536 = b2 % 65536 → numberFrom b1 l = numberFrom b2 l := by
  induction l with
  | nil =>
    intro b1 b2 _
    rfl
  | cons c cs ih =>
    intro b1 b2 h
    simp only [numberFrom, h]
    rw [ih (b1 + 1) (b2 + 1) (by omega)]

lemma sentPayloads_nil : sentPayloads [] = [] := rfl

lemma sentPayloads_data (bn : Nat) (c : Chunk) (rest : List OutPacket) :
    sentPayloads (OutPacket.data bn c :: rest) = c :: sentPayloads rest := rfl

lemma sentPayloads_oack (o : List TransferOption) (rest : List OutPacket) :
    sentPayloads (OutPacket.oack o :: rest) = sentPayloads rest := rfl

lemma sentPayloads_append (l1 l2 : List OutPacket) :
    sentPayloads (l1 ++ l2) = sentPayloads l1 ++ sentPayloads l2 := by
  simp [sentPayloads, List.filterMap_append]

lemma sentPayloads_numberFrom (bn : Nat) (l : Window) :
    sentPayloads (numberFrom bn l) = l := by
  induction l generalizing bn with
  | nil => rfl
  | cons c cs ih =>
    simp only [numberFrom, sentPayloads_data]
    rw [ih (bn + 1)]

lemma sentData_nil : sentData [] = [] := rfl

lemma sentData_oack (o : List TransferOption) (rest : List OutPacket) :
    sentData (OutPacket.oack o :: rest) = sentData rest := rfl

lemma sentData_append (l1 l2 : List OutPacket) :
    sentData (l1 ++ l2) = sentData l1 ++ sentData l2 := by
  simp [sentData, List.filter_append]

lemma sentData_numberFrom (bn : Nat) (l : Window) :
    sentData (numberFrom bn l) = numberFrom bn l := by
  induction l generalizing bn with
  | nil => rfl
  | cons c cs ih =>
    show OutPacket.data (bn % 65536) c :: sentData (numberFrom (bn + 1) cs)
      = OutPacket.data (bn % 65536) c :: numberFrom (bn + 1) cs
    rw [ih (bn + 1)]

/-! Arithmetic and fill-window lemmas. -/

lemma wrapSub_add (C d : Nat) (hC : C < 65536) :
    wrapSub ((C + d) % 65536) C = d % 65536 := by
  unfold wrapSub
  omega

lemma fillLoop_spec (blk : Nat) (hb : 1 ≤ blk) :
    ∀ (n : Nat) (w : Window) (bytes : List Byte) (pos : Nat) (u0 : Bool),
      fillLoop n w blk ⟨bytes, pos⟩ u0 =
        (u0 || decide (bytes.length - pos < n * blk),
          w ++ (chunksOf blk (bytes.drop pos)).take n,
          ⟨bytes, min (pos + n * blk) (max pos bytes.length)⟩) := by
  intro n
  induction n with
  | zero =>
    intro w bytes pos u0
    have hlt : ¬ (bytes.length - pos < 0 * blk) := by omega
    have hmin : min (pos + 0 * blk) (max pos bytes.length) = pos := by omega
    simp [fillLoop, hlt, hmin]
  | succ n ih =>
    intro w bytes pos u0
    have hread : ((bytes.drop pos).take blk).length
        = min blk (bytes.length - pos) := by
      simp [List.length_take, List.length_drop]
    by_cases hrem : bytes.length ≤ pos
    · -- end of file: the read returns nothing, loop stops at once
      have hdrop : bytes.drop pos = [] := List.drop_eq_nil_of_le hrem
      have hlen0 : ((bytes.drop pos).take blk).length = 0 := by
        rw [hread]
        omega
      have hstep : fillLoop (n + 1) w blk ⟨bytes, pos⟩ u0
          = (true, w, ⟨bytes, pos + ((bytes.drop pos).take blk).length⟩) := by
        simp only [fillLoop, fileRead]
        rw [if_pos (Or.inl hlen0), if_pos hlen0]
      rw [hstep, hlen0, hdrop, chunksOf_nil]
      have e1 : (u0 || decide (bytes.length - pos < (n + 1) * blk)) = true := by
        have h1 : blk ≤ (n + 1) * blk := Nat.le_mul_of_pos_left blk (Nat.succ_pos n)
        have hx : bytes.length - pos < (n + 1) * blk := by omega
        simp [hx]
      have e2 : min (pos + (n + 1) * blk) (max pos bytes.length) = pos := by
        omega
      rw [e1, e2]
      simp
    · push_neg at hrem
      have hdne : bytes.drop pos ≠ [] := by
        intro e
        have := List.drop_eq_nil_iff.mp e
        omega
      have hcons := chunksOf_cons blk hb (bytes.drop pos) hdne
      by_cases hshort : bytes.length - pos < blk
      · -- short (but non-empty) read exhausts the file
        have hlen : ((bytes.drop pos).take blk).length = bytes.length - pos := by
          rw [hread]
          omega
        have hdd : (bytes.drop pos).drop blk = [] :=
          List.drop_eq_nil_of_le (by simp only [List.length_drop]; omega)
        have hstep : fillLoop (n + 1) w blk ⟨bytes, pos⟩ u0
            = fillLoop n (w ++ [(bytes.drop pos).take blk]) blk
                ⟨bytes, pos + ((bytes.drop pos).take blk).length⟩ true := by
          simp only [fillLoop, fileRead]
          rw [if_neg (by rw [hlen]; omega), if_pos (by rw [hlen]; omega)]
        rw [hstep, ih]
        have hdrop2 : bytes.drop (pos + ((bytes.drop pos).take blk).length) = [] :=
          List.drop_eq_nil_of_le (by rw [hlen]; omega)
        have hwin : chunksOf blk (bytes.drop pos) = [(bytes.drop pos).take blk] := by
          rw [hcons, hdd, chunksOf_nil]
        rw [hdrop2, chunksOf_nil, hwin]
        have e1 : (true || decide (bytes.length
              - (pos + ((bytes.drop pos).take blk).length) < n * blk))
            = (u0 || decide (bytes.length - pos < (n + 1) * blk)) := by
          have h2 : blk ≤ (n + 1) * blk := Nat.le_mul_of_pos_left blk (Nat.succ_pos n)
          have hx : bytes.length - pos < (n + 1) * blk := by omega
          simp [hx]
        have e2 : min (pos + ((bytes.drop pos).take blk).length + n * blk)
              (max (pos + ((bytes.drop pos).take blk).length) bytes.length)
            = min (pos + (n + 1) * blk) (max pos bytes.length) := by
          have hsm : (n + 1) * blk = n * blk + blk := Nat.succ_mul n blk
          rw [hlen]
          omega
        rw [e1, e2]
        simp
      · -- full read
        push_neg at hshort
        have hlen : ((bytes.drop pos).take blk).length = blk := by
          rw [hread]
          omega
        have hstep : fillLoop (n + 1) w blk ⟨bytes, pos⟩ u0
            = fillLoop n (w ++ [(bytes.drop pos).take blk]) blk
                ⟨bytes, pos + ((bytes.drop pos).take blk).length⟩ u0 := by
          simp only [fillLoop, fileRead]
          rw [if_neg (by rw [hlen]; omega)]
          rw [show (if ((bytes.drop pos).take blk).length = 0 ∨
              ((bytes.drop pos).take blk).length < blk then true else u0) = u0
            from by rw [if_neg (by rw [hlen]; omega)]]
        rw [hstep, ih]
        have hdd : bytes.drop (pos + ((bytes.drop pos).take blk).length)
            = (bytes.drop pos).drop blk := by
          rw [hlen, List.drop_drop]
        rw [hdd]
        have e1 : decide (bytes.length
              - (pos + ((bytes.drop pos).take blk).length) < n * blk)
            = decide (bytes.length - pos < (n + 1) * blk) := by
          have hsm : (n + 1) * blk = n * blk + blk := Nat.succ_mul n blk
          rw [hlen, decide_eq_decide]
          omega
        have e2 : (chunksOf blk (bytes.drop pos)).take (n + 1)
            = (bytes.drop pos).take blk
                :: (chunksOf blk ((bytes.drop pos).drop blk)).take n := by
          rw [hcons, List.take_succ_cons]
        have e3 : min (pos + ((bytes.drop pos).take blk).length + n * blk)
              (max (pos + ((bytes.drop pos).take blk).length) bytes.length)
            = min (pos + (n + 1) * blk) (max pos bytes.length) := by
          have hsm : (n + 1) * blk = n * blk + blk := Nat.succ_mul n blk
          rw [hlen]
          omega
        rw [e1, e2, e3]
        simp

lemma fill_window_empty (so : StateOptions) (bytes : List Byte) (pos : Nat)
    (hb : 1 ≤ so.blk_size) (hw1 : 1 ≤ so.windowsize)
    (hw2 : so.windowsize ≤ 65535) :
    fill_window [] so ⟨bytes, pos⟩ =
      (decide (bytes.length - pos < so.windowsize * so.blk_size),
        (chunksOf so.blk_size (bytes.drop pos)).take so.windowsize,
        ⟨bytes, min (pos + so.windowsize * so.blk_size) (max pos bytes.length)⟩) := by
  have htf : (so.windowsize % 65536 + 65536 - ([] : Window).length % 65536) % 65536
      = so.windowsize := by
    simp only [List.length_nil]
    omega
  unfold fill_window
  simp only [htf]
  rw [if_neg (by omega)]
  rw [fillLoop_spec so.blk_size hb so.windowsize [] bytes pos false]
  simp

/-- With a negotiated block size of 0 (accepted verbatim by
`parse_options`), every read returns 0 bytes, so a fill attempt on an
empty window queues nothing and immediately reports the file
exhausted. -/
lemma fill_window_zero_blk (so : StateOptions) (bytes : List Byte) (pos : Nat)
    (hblk : so.blk_size = 0) (hw1 : 1 ≤ so.windowsize)
    (hw2 : so.windowsize ≤ 65535) :
    fill_window [] so ⟨bytes, pos⟩ = (true, [], ⟨bytes, pos⟩) := by
  have htf : (so.windowsize % 65536 + 65536 - ([] : Window).length % 65536) % 65536
      = so.windowsize := by
    simp only [List.length_nil]
    omega
  unfold fill_window
  simp only [htf]
  rw [if_neg (by omega)]
  rw [hblk]
  obtain ⟨m, hm⟩ : ∃ m, so.windowsize = m + 1 := ⟨so.windowsize - 1, by omega⟩
  rw [hm]
  simp [fillLoop, fileRead]

/-! Unfolding lemmas for the lockstep driver. -/

lemma drain_finished (s : State) (b : Nat) : (drain s b).finished = s.finished := by
  simp only [drain]
  split <;> rfl

lemma lockstepRun_succ (fuel : Nat) (conn : ConnMap) (a : Addr) (s : State)
    (h : conn a = some s) :
    lockstepRun (fuel + 1) conn a =
      match handle_ack conn (ackFor s) a with
      | Except.error _ => ([], false)
      | Except.ok r =>
        (r.2 ++ (lockstepRun fuel r.1 a).1, (lockstepRun fuel r.1 a).2) := by
  simp only [lockstepRun, h]

lemma lockstepRun_none (fuel : Nat) (conn : ConnMap) (a : Addr)
    (h : conn a = none) : lockstepRun (fuel + 1) conn a = ([], true) := by
  simp only [lockstepRun, h]

/-- Once the entry holds an empty window with the completion flag set,
whatever the client acknowledges next ends the session: the drain (taken
or skipped) leaves the flag set, so `end_session` removes the entry and
nothing further is sent. -/
lemma lockstepRun_finished_empty (fuel : Nat) (conn : ConnMap) (a : Addr)
    (f : FileH) (so : StateOptions) (C : Nat)
    (hconn : conn a = some ⟨f, so, C, [], true⟩) (hfuel : 2 ≤ fuel) :
    lockstepRun fuel conn a = ([], true) := by
  obtain ⟨n, rfl⟩ : ∃ n, fuel = n + 1 := ⟨fuel - 1, by omega⟩
  rw [lockstepRun_succ n conn a _ hconn]
  rw [handle_ack_some conn a _ _ hconn]
  rw [if_pos (by rw [drain_finished])]
  obtain ⟨g, rfl⟩ : ∃ g, n = g + 1 := ⟨n - 1, by omega⟩
  dsimp only
  rw [lockstepRun_none g _ a (updateConn_same _ _ _)]
  simp

/-- The heart of the C2 argument: from the steady state reached after a
window has just been transmitted (file cursor past the window, window
equal to the next `windowsize` chunks starting at byte `pos`, completion
flag set exactly when the remainder fits the window), the batch-acking
client drives the transfer to completion and the server transmits
exactly the remaining chunks, numbered consecutively mod 2^16. -/
lemma lockstepRun_spec (blk ws : Nat) (hb : 1 ≤ blk) (hw1 : 1 ≤ ws)
    (hw2 : ws ≤ 65535) :
    ∀ (fuel : Nat) (bytes : List Byte) (pos C : Nat) (conn : ConnMap) (a : Addr)
      (so : StateOptions),
      so.blk_size = blk → so.windowsize = ws → C < 65536 →
      conn a = some ⟨⟨bytes, min (pos + ws * blk) (max pos bytes.length)⟩, so, C,
        (chunksOf blk (bytes.drop pos)).take ws,
        decide (bytes.length - pos < ws * blk)⟩ →
      bytes.length - pos + 2 ≤ fuel →
      lockstepRun fuel conn a =
        (numberFrom (C + ((chunksOf blk (bytes.drop pos)).take ws).length)
          ((chunksOf blk (bytes.drop pos)).drop ws), true) := by
  intro fuel
  induction fuel with
  | zero =>
    intro bytes pos C conn a so _ _ _ _ hfuel
    omega
  | succ n ih =>
    intro bytes pos C conn a so hblk hws hC hconn hfuel
    have hwsblk : 1 ≤ ws * blk := Nat.mul_pos hw1 hb
    by_cases hempty : (chunksOf blk (bytes.drop pos)).take ws = []
    · -- the whole file has been transmitted and acknowledged; the client
      -- re-sends its final ack and the server closes the session
      have hcs : chunksOf blk (bytes.drop pos) = [] := by
        rcases List.take_eq_nil_iff.mp hempty with h | h
        · omega
        · exact h
      have hdnil : bytes.drop pos = [] := (chunksOf_eq_nil_iff blk hb _).mp hcs
      have hrem0 : bytes.length ≤ pos := List.drop_eq_nil_iff.mp hdnil
      have hfin : decide (bytes.length - pos < ws * blk) = true := by
        simp only [decide_eq_true_eq]
        omega
      rw [hempty, hfin] at hconn
      rw [lockstepRun_succ n conn a _ hconn]
      have hack : ackFor ⟨⟨bytes, min (pos + ws * blk) (max pos bytes.length)⟩,
          so, C, [], true⟩ = (C + 65535) % 65536 := by
        simp [ackFor]
      rw [hack, handle_ack_some conn a _ _ hconn]
      rw [if_pos (by rw [drain_finished])]
      obtain ⟨g, rfl⟩ : ∃ g, n = g + 1 := ⟨n - 1, by omega⟩
      dsimp only
      rw [lockstepRun_none g _ a (updateConn_same _ _ _)]
      rw [hempty, hcs]
      simp [numberFrom]
    · -- at least one chunk is in flight: the client acknowledges the last
      -- block of the window and the server drains it completely
      have hcsne : chunksOf blk (bytes.drop pos) ≠ [] := by
        intro h
        apply hempty
        rw [h]
        simp
      have hdne : bytes.drop pos ≠ [] := by
        intro h
        exact hcsne ((chunksOf_eq_nil_iff blk hb _).mpr h)
      have hposlt : pos < bytes.length := by
        by_contra hcon
        push_neg at hcon
        exact hdne (List.drop_eq_nil_of_le hcon)
      have hL1 : 1 ≤ ((chunksOf blk (bytes.drop pos)).take ws).length :=
        List.length_pos.mpr hempty
      have hLle : ((chunksOf blk (bytes.drop pos)).take ws).length ≤ ws := by
        simp only [List.length_take]
        omega
      rw [lockstepRun_succ n conn a _ hconn]
      have hack : ackFor ⟨⟨bytes, min (pos + ws * blk) (max pos bytes.length)⟩,
          so, C, (chunksOf blk (bytes.drop pos)).take ws,
          decide (bytes.length - pos < ws * blk)⟩
          = (C + (((chunksOf blk (bytes.drop pos)).take ws).length - 1)) % 65536 := by
        simp only [ackFor]
        rw [if_neg (by omega)]
      rw [hack, handle_ack_some conn a _ _ hconn]
      have hdiff : wrapSub
          ((C + (((chunksOf blk (bytes.drop pos)).take ws).length - 1)) % 65536) C
          = ((chunksOf blk (bytes.drop pos)).take ws).length - 1 := by
        rw [wrapSub_add C _ hC]
        omega
      have hdrain : drain ⟨⟨bytes, min (pos + ws * blk) (max pos bytes.length)⟩,
          so, C, (chunksOf blk (bytes.drop pos)).take ws,
          decide (bytes.length - pos < ws * blk)⟩
          ((C + (((chunksOf blk (bytes.drop pos)).take ws).length - 1)) % 65536)
          = ⟨⟨bytes, min (pos + ws * blk) (max pos bytes.length)⟩, so,
            (C + ((chunksOf blk (bytes.drop pos)).take ws).length) % 65536, [],
            decide (bytes.length - pos < ws * blk)⟩ := by
        simp only [drain]
        rw [hdiff, if_pos (by rw [hws]; omega)]
        rw [State.mk.injEq]
        refine ⟨rfl, rfl, by omega, ?_, rfl⟩
        show popBackN _ ((chunksOf blk (bytes.drop pos)).take ws) = []
        rw [show (((chunksOf blk (bytes.drop pos)).take ws).length - 1 + 1) % 65536
          = ((chunksOf blk (bytes.drop pos)).take ws).length from by omega]
        unfold popBackN
        rw [Nat.sub_self]
        exact List.take_zero _
      rw [hdrain]
      by_cases hfin2 : bytes.length - pos < ws * blk
      · -- the queued terminating chunk was acknowledged: close the session
        rw [if_pos (by show decide _ = true; simp only [decide_eq_true_eq]; omega)]
        have hcslen : (chunksOf blk (bytes.drop pos)).length ≤ ws := by
          apply chunksOf_length_le blk hb
          simp only [List.length_drop]
          omega
        obtain ⟨g, rfl⟩ : ∃ g, n = g + 1 := ⟨n - 1, by omega⟩
        dsimp only
        rw [lockstepRun_none g _ a (updateConn_same _ _ _)]
        rw [List.drop_of_length_le hcslen]
        simp [numberFrom]
      · -- more of the file remains: the server refills and retransmits,
        -- and the induction hypothesis covers the rest of the dialogue
        push_neg at hfin2
        rw [if_neg (by show ¬ (decide _ = true); simp only [decide_eq_true_eq]; omega)]
        have hP : min (pos + ws * blk) (max pos bytes.length) = pos + ws * blk := by
          omega
        have hps : process_send ⟨⟨bytes, min (pos + ws * blk) (max pos bytes.length)⟩,
            so, (C + ((chunksOf blk (bytes.drop pos)).take ws).length) % 65536, [],
            decide (bytes.length - pos < ws * blk)⟩
            = (⟨⟨bytes, min (pos + ws * blk + ws * blk)
                  (max (pos + ws * blk) bytes.length)⟩, so,
                (C + ((chunksOf blk (bytes.drop pos)).take ws).length) % 65536,
                (chunksOf blk (bytes.drop (pos + ws * blk))).take ws,
                decide (bytes.length - (pos + ws * blk) < ws * blk)⟩,
              numberFrom ((C + ((chunksOf blk (bytes.drop pos)).take ws).length) % 65536)
                ((chunksOf blk (bytes.drop (pos + ws * blk))).take ws)) := by
          unfold process_send send_window
          dsimp only
          rw [hP]
          rw [fill_window_empty so bytes (pos + ws * blk) (by rw [hblk]; exact hb)
            (by rw [hws]; exact hw1) (by rw [hws]; exact hw2)]
          dsimp only
          rw [hblk, hws]
        rw [hps]
        dsimp only
        rw [ih bytes (pos + ws * blk)
          ((C + ((chunksOf blk (bytes.drop pos)).take ws).length) % 65536)
          _ a so hblk hws (Nat.mod_lt _ (by omega)) (updateConn_same _ _ _) (by omega)]
        have hdropdrop : bytes.drop (pos + ws * blk)
            = (bytes.drop pos).drop (ws * blk) := by
          rw [List.drop_drop]
        have htail : (chunksOf blk (bytes.drop pos)).drop ws
            = chunksOf blk (bytes.drop (pos + ws * blk)) := by
          rw [hdropdrop, chunksOf_drop blk hb]
        have hsplit : numberFrom
              (C + ((chunksOf blk (bytes.drop pos)).take ws).length)
              ((chunksOf blk (bytes.drop pos)).drop ws)
            = numberFrom (C + ((chunksOf blk (bytes.drop pos)).take ws).length)
                ((chunksOf blk (bytes.drop (pos + ws * blk))).take ws)
              ++ numberFrom ((C + ((chunksOf blk (bytes.drop pos)).take ws).length)
                  + ((chunksOf blk (bytes.drop (pos + ws * blk))).take ws).length)
                ((chunksOf blk (bytes.drop (pos + ws * blk))).drop ws) := by
          rw [htail]
          conv_lhs =>
            rw [← List.take_append_drop ws (chunksOf blk (bytes.drop (pos + ws * blk)))]
          rw [numberFrom_append]
        rw [hsplit]
        rw [numberFrom_congr ((chunksOf blk (bytes.drop (pos + ws * blk))).take ws)
          ((C + ((chunksOf blk (bytes.drop pos)).take ws).length) % 65536)
          (C + ((chunksOf blk (bytes.drop pos)).take ws).length) (by omega)]
        rw [numberFrom_congr ((chunksOf blk (bytes.drop (pos + ws * blk))).drop ws)
          (((C + ((chunksOf blk (bytes.drop pos)).take ws).length) % 65536)
            + ((chunksOf blk (bytes.drop (pos + ws * blk))).take ws).length)
          ((C + ((chunksOf blk (bytes.drop pos)).take ws).length)
            + ((chunksOf blk (bytes.drop (pos + ws * blk))).take ws).length) (by omega)]

/-- C2 (amended): a validated, negotiated read request served to
completion against the batch-acking client succeeds, and its Data
traffic is fully characterized with no assumption on the negotiated
block size.  When blockSize is positive, the Data packets sent are
exactly the block-size chunking of the file, numbered consecutively
from 1 (mod 2^16), so their payload concatenation in transmission order
is exactly the file bytes; every chunk except possibly the last is
full-sized, and every chunk is non-empty and at most blockSize (no
empty terminating chunk is ever sent, and for an exact-multiple file
size the final chunk is full-sized rather than shorter).  When
blockSize 0 is negotiated — `parse_options` accepts it verbatim — the
transfer still completes but sends no Data payload at all. -/
theorem c2_completed_read_sends_exact_file_chunks
    (dir fname : PathM) (fs : PathM → Option (List Byte))
    (opts : List TransferOption) (fuel : Nat) (bytes : List Byte)
    (so : StateOptions) (opts' : List TransferOption)
    (hv : validate_file_path (joinPath dir fname) dir = true)
    (hfs : fs (joinPath dir fname) = some bytes)
    (hp : parse_options opts bytes.length = Except.ok (so, opts'))
    (hfuel : bytes.length + 3 ≤ fuel) :
    (serveRead dir fs fname opts fuel).1 = Except.ok () ∧
    (serveRead dir fs fname opts fuel).2.2 = true ∧
    (1 ≤ so.blk_size →
      sentData (serveRead dir fs fname opts fuel).2.1
        = numberFrom 1 (chunksOf so.blk_size bytes) ∧
      sentPayloads (serveRead dir fs fname opts fuel).2.1
        = chunksOf so.blk_size bytes ∧
      (sentPayloads (serveRead dir fs fname opts fuel).2.1).flatten = bytes ∧
      (∀ c ∈ (sentPayloads (serveRead dir fs fname opts fuel).2.1).dropLast,
        c.length = so.blk_size) ∧
      (∀ c ∈ sentPayloads (serveRead dir fs fname opts fuel).2.1,
        0 < c.length ∧ c.length ≤ so.blk_size)) ∧
    (so.blk_size = 0 →
      sentPayloads (serveRead dir fs fname opts fuel).2.1 = []) := by
  obtain ⟨hw1, hw2⟩ := parse_options_windowsize opts bytes.length so opts' hp
  have hdrain0 : drain ⟨⟨bytes, 0⟩, so, 0, [], false⟩ 0
      = ⟨⟨bytes, 0⟩, so, 1, [], false⟩ := by
    simp only [drain]
    rw [show wrapSub 0 0 = 0 from rfl]
    rw [if_pos (Nat.zero_le _)]
    rfl
  by_cases hb : 1 ≤ so.blk_size
  · -- positive block size: the transfer ships the exact chunking
    have hps0 : process_send ⟨⟨bytes, 0⟩, so, 1, [], false⟩ =
        (⟨⟨bytes, min (0 + so.windowsize * so.blk_size) (max 0 bytes.length)⟩, so, 1,
          (chunksOf so.blk_size (bytes.drop 0)).take so.windowsize,
          decide (bytes.length - 0 < so.windowsize * so.blk_size)⟩,
        numberFrom 1 ((chunksOf so.blk_size (bytes.drop 0)).take so.windowsize)) := by
      unfold process_send send_window
      dsimp only
      rw [fill_window_empty so bytes 0 hb hw1 hw2]
    have hall : numberFrom 1 ((chunksOf so.blk_size (bytes.drop 0)).take so.windowsize)
          ++ numberFrom
            (1 + ((chunksOf so.blk_size (bytes.drop 0)).take so.windowsize).length)
            ((chunksOf so.blk_size (bytes.drop 0)).drop so.windowsize)
        = numberFrom 1 (chunksOf so.blk_size bytes) := by
      conv_rhs => rw [show bytes = bytes.drop 0 from (List.drop_zero bytes).symm]
      conv_rhs =>
        rw [← List.take_append_drop so.windowsize
          (chunksOf so.blk_size (bytes.drop 0))]
      rw [numberFrom_append]
    have hmain : ∃ pre : List OutPacket,
        serveRead dir fs fname opts fuel
          = (Except.ok (), pre ++ numberFrom 1 (chunksOf so.blk_size bytes), true) ∧
        sentData pre = [] ∧ sentPayloads pre = [] := by
      by_cases hlen : opts'.length > 0
      · -- negotiated options: OptionAck first, Data only after Ack(0)
        refine ⟨[OutPacket.oack opts'], ?_, rfl, rfl⟩
        unfold serveRead
        rw [handle_rrq_success conn0 dir fs fname opts 0 bytes so opts' hv hfs hp,
          if_pos hlen]
        dsimp only
        obtain ⟨m, rfl⟩ : ∃ m, fuel = m + 1 := ⟨fuel - 1, by omega⟩
        rw [lockstepRun_succ m _ 0 _ (updateConn_same _ _ _)]
        rw [show ackFor ⟨⟨bytes, 0⟩, so, 0, [], false⟩ = 0 from by simp [ackFor]]
        rw [handle_ack_some _ 0 _ 0 (updateConn_same _ _ _)]
        rw [hdrain0]
        rw [if_neg (by
          show ¬ ((⟨⟨bytes, 0⟩, so, 1, [], false⟩ : State).finished = true)
          simp)]
        rw [hps0]
        dsimp only
        rw [lockstepRun_spec so.blk_size so.windowsize hb hw1 hw2 m bytes 0 1 _ 0 so
          rfl rfl (by omega) (updateConn_same _ _ _) (by omega)]
        rw [hall]
      · -- no options: the first window is sent straight away
        refine ⟨[], ?_, rfl, rfl⟩
        unfold serveRead
        rw [handle_rrq_success conn0 dir fs fname opts 0 bytes so opts' hv hfs hp,
          if_neg hlen]
        dsimp only
        rw [hps0]
        dsimp only
        rw [lockstepRun_spec so.blk_size so.windowsize hb hw1 hw2 fuel bytes 0 1 _ 0 so
          rfl rfl (by omega) (updateConn_same _ _ _) (by omega)]
        rw [List.nil_append, hall]
    obtain ⟨pre, hserve, hd0, hq0⟩ := hmain
    rw [hserve]
    have hpay : sentPayloads (pre ++ numberFrom 1 (chunksOf so.blk_size bytes))
        = chunksOf so.blk_size bytes := by
      rw [sentPayloads_append, hq0, List.nil_append, sentPayloads_numberFrom]
    refine ⟨rfl, rfl, fun _ => ⟨?_, ?_, ?_, ?_, ?_⟩, fun h0 => absurd h0 (by omega)⟩
    · show sentData (pre ++ numberFrom 1 (chunksOf so.blk_size bytes)) = _
      rw [sentData_append, hd0, List.nil_append, sentData_numberFrom]
    · exact hpay
    · show (sentPayloads (pre ++ numberFrom 1 (chunksOf so.blk_size bytes))).flatten
        = bytes
      rw [hpay]
      exact join_chunksOf so.blk_size hb bytes
    · show ∀ c ∈ (sentPayloads
          (pre ++ numberFrom 1 (chunksOf so.blk_size bytes))).dropLast,
        c.length = so.blk_size
      rw [hpay]
      exact dropLast_chunksOf so.blk_size hb bytes.length bytes (Nat.le_refl _)
    · show ∀ c ∈ sentPayloads (pre ++ numberFrom 1 (chunksOf so.blk_size bytes)),
        0 < c.length ∧ c.length ≤ so.blk_size
      rw [hpay]
      exact mem_chunksOf so.blk_size hb bytes.length bytes (Nat.le_refl _)
  · -- block size 0: every read is empty, the completion flag is set
    -- before anything is queued, and no Data payload is ever sent
    have hb0 : so.blk_size = 0 := by omega
    have hpz : process_send ⟨⟨bytes, 0⟩, so, 1, [], false⟩
        = (⟨⟨bytes, 0⟩, so, 1, [], true⟩, []) := by
      unfold process_send send_window
      dsimp only
      rw [fill_window_zero_blk so bytes 0 hb0 hw1 hw2]
      rfl
    have hmainz : ∃ pre : List OutPacket,
        serveRead dir fs fname opts fuel = (Except.ok (), pre, true) ∧
        sentData pre = [] ∧ sentPayloads pre = [] := by
      by_cases hlen : opts'.length > 0
      · refine ⟨[OutPacket.oack opts'], ?_, rfl, rfl⟩
        unfold serveRead
        rw [handle_rrq_success conn0 dir fs fname opts 0 bytes so opts' hv hfs hp,
          if_pos hlen]
        dsimp only
        obtain ⟨m, rfl⟩ : ∃ m, fuel = m + 1 := ⟨fuel - 1, by omega⟩
        rw [lockstepRun_succ m _ 0 _ (updateConn_same _ _ _)]
        rw [show ackFor ⟨⟨bytes, 0⟩, so, 0, [], false⟩ = 0 from by simp [ackFor]]
        rw [handle_ack_some _ 0 _ 0 (updateConn_same _ _ _)]
        rw [hdrain0]
        rw [if_neg (by
          show ¬ ((⟨⟨bytes, 0⟩, so, 1, [], false⟩ : State).finished = true)
          simp)]
        rw [hpz]
        dsimp only
        rw [lockstepRun_finished_empty m _ 0 _ _ _ (updateConn_same _ _ _) (by omega)]
        simp
      · refine ⟨[], ?_, rfl, rfl⟩
        unfold serveRead
        rw [handle_rrq_success conn0 dir fs fname opts 0 bytes so opts' hv hfs hp,
          if_neg hlen]
        dsimp only
        rw [hpz]
        dsimp only
        rw [lockstepRun_finished_empty fuel _ 0 _ _ _ (updateConn_same _ _ _)
          (by omega)]
        simp
    obtain ⟨pre, hserve, hd0, hq0⟩ := hmainz
    rw [hserve]
    exact ⟨rfl, rfl, fun h1 => absurd h1 (by omega), fun _ => hq0⟩

/-- C2 witness: the amended statement at a concrete five-byte file
served with default options (block size 512, both halves of the
dichotomy discharged at the concrete block size). -/
theorem c2_completed_read_sends_exact_file_chunks_witness :
    (serveRead exDir exFs5 exName [] 10).2.2 = true ∧
    sentPayloads (serveRead exDir exFs5 exName [] 10).2.1
      = chunksOf 512 [1, 2, 3, 4, 5] ∧
    (sentPayloads (serveRead exDir exFs5 exName [] 10).2.1).flatten
      = [1, 2, 3, 4, 5] :=
  ⟨(c2_completed_read_sends_exact_file_chunks exDir exName exFs5 [] 10
      [1, 2, 3, 4, 5] ⟨512, 0, 5, 1⟩ [] (by decide) (by decide) rfl
      (by decide)).2.1,
    ((c2_completed_read_sends_exact_file_chunks exDir exName exFs5 [] 10
      [1, 2, 3, 4, 5] ⟨512, 0, 5, 1⟩ [] (by decide) (by decide) rfl
      (by decide)).2.2.1 (by decide)).2.1,
    ((c2_completed_read_sends_exact_file_chunks exDir exName exFs5 [] 10
      [1, 2, 3, 4, 5] ⟨512, 0, 5, 1⟩ [] (by decide) (by decide) rfl
      (by decide)).2.2.1 (by decide)).2.2.1⟩

/-- C2 (counterexample): two concrete refutations of the claim as
stated.  A four-byte file served with negotiated block size 2 (an exact
multiple) completes, but the FINAL chunk sent has length 2 = blockSize —
it is not shorter than blockSize and no empty terminating chunk is sent.
And the same file served with negotiated block size 0 (accepted verbatim
by the negotiator) completes while sending NO Data payload at all, so
the payload concatenation is empty rather than the file's bytes. -/
theorem c2_counterexample_exact_multiple :
    (serveRead exDir exFs4 exName [⟨OptionType.BlockSize, 2⟩] 10).2.2 = true ∧
    sentPayloads (serveRead exDir exFs4 exName [⟨OptionType.BlockSize, 2⟩] 10).2.1
      = [[1, 2], [3, 4]] ∧
    ((sentPayloads (serveRead exDir exFs4 exName
        [⟨OptionType.BlockSize, 2⟩] 10).2.1).getLastD []).length = 2 ∧
    ¬ (((sentPayloads (serveRead exDir exFs4 exName
        [⟨OptionType.BlockSize, 2⟩] 10).2.1).getLastD []).length < 2) ∧
    (serveRead exDir exFs4 exName [⟨OptionType.BlockSize, 0⟩] 10).2.2 = true ∧
    sentPayloads (serveRead exDir exFs4 exName [⟨OptionType.BlockSize, 0⟩] 10).2.1
      = [] ∧
    (sentPayloads (serveRead exDir exFs4 exName
        [⟨OptionType.BlockSize, 0⟩] 10).2.1).flatten ≠ [1, 2, 3, 4] := by
  exact ⟨by decide, by decide, by decide, by decide, by decide, by decide,
    by decide⟩

end Tftpd
